import Mathlib

/-!
Verification of the `/proc/stat` parser (`src/stat.rs` of `linux_proc`).

Strings are modelled as `List Char`. The `util` module of the crate
(`parse_token`, `parse_u64`, `consume_space`, `parse_dummy`, `LineParser`)
is not part of the given sources, so those primitives are modelled from the
specification (sections 4.1 and 4.2); every such definition is marked
`Modelled from the spec:`. All others are direct translations of
`src/stat.rs`.
-/

/-- A whitespace separator character: space or tab (spec section 4.1). -/
def wsChar (c : Char) : Bool := c == ' ' || c == '\t'

/-- Modelled from the spec: `util::consume_space` skips spaces and tabs
and returns the unconsumed remainder (spec section 4.1). -/
def consume_space (input : List Char) : List Char := input.dropWhile wsChar

/-- Modelled from the spec: `util::parse_token` skips whitespace, reads the
next whitespace-delimited token, and returns the remainder plus the token,
or no match when no token is present (spec section 4.1). -/
def parse_token (input : List Char) : Option (List Char × List Char) :=
  let rest := input.dropWhile wsChar
  let tok := rest.takeWhile (fun c => !wsChar c)
  if tok = [] then none else some (rest.dropWhile (fun c => !wsChar c), tok)

/-- Decimal value of a digit string, most significant digit first. -/
def natOfDigits (ds : List Char) : Nat :=
  ds.foldl (fun acc c => 10 * acc + (c.toNat - 48)) 0

/-- Modelled from the spec: `util::parse_u64` skips whitespace, reads the
next contiguous run of decimal digits as an unsigned integer, rejecting a
non-digit leading character, and returns the remainder plus the value, or
no match (spec section 4.1). -/
def parse_u64 (input : List Char) : Option (List Char × Nat) :=
  let rest := input.dropWhile wsChar
  let digits := rest.takeWhile Char.isDigit
  if digits = [] then none
  else some (rest.dropWhile Char.isDigit, natOfDigits digits)

/-- Modelled from the spec: `util::parse_dummy` accepts any line and
ignores its content entirely (spec section 4.4 step 3). -/
def parse_dummy (_input : List Char) : Except String Unit := .ok ()

/-- `StatCpu` of `src/stat.rs`: the counters of one cpu line. -/
structure StatCpu where
  user : Nat
  nice : Nat
  system : Nat
  idle : Nat
  iowait : Nat
  irq : Nat
  softirq : Nat
  steal : Option Nat
  guest : Option Nat
  guest_nice : Option Nat
  deriving Repr, DecidableEq

/-- The `starts_with("cpu")` test of `StatCpu::from_str`. -/
def startsWithCpu (l : List Char) : Bool :=
  match l with
  | 'c' :: 'p' :: 'u' :: _ => true
  | _ => false

/-- `StatCpu::from_str` of `src/stat.rs`: label check, seven mandatory
counters with named errors, then three optional counters; trailing content
is not checked. -/
def StatCpu.from_str (input : List Char) : Except String StatCpu :=
  match parse_token input with
  | none => .error "first token"
  | some (input, cpunum) =>
    if !startsWithCpu cpunum then .error "starts with cpu<x>"
    else
      match parse_u64 input with
      | none => .error "user"
      | some (input, user) =>
        match parse_u64 input with
        | none => .error "nice"
        | some (input, nice) =>
          match parse_u64 input with
          | none => .error "system"
          | some (input, system) =>
            match parse_u64 input with
            | none => .error "idle"
            | some (input, idle) =>
              match parse_u64 input with
              | none => .error "iowait"
              | some (input, iowait) =>
                match parse_u64 input with
                | none => .error "irq"
                | some (input, irq) =>
                  match parse_u64 input with
                  | none => .error "softirq"
                  | some (input, softirq) =>
                    let (input, steal) :=
                      match parse_u64 input with
                      | some (i, v) => (i, some v)
                      | none => (input, none)
                    let (input, guest) :=
                      match parse_u64 input with
                      | some (i, v) => (i, some v)
                      | none => (input, none)
                    let (_, guest_nice) :=
                      match parse_u64 input with
                      | some (i, v) => (i, some v)
                      | none => (input, none)
                    .ok { user, nice, system, idle, iowait, irq, softirq,
                          steal, guest, guest_nice }

/-- `u64::checked_add`: the sum when it fits in 64 unsigned bits, otherwise
none (the Rust code then panics via `unwrap`). -/
def checked_add (a b : Nat) : Option Nat :=
  if a + b < 2 ^ 64 then some (a + b) else none

/-- `StatCpu::total` of `src/stat.rs`: chained checked additions of the
seven mandatory counters and the optional ones with `unwrap_or(0)`; a none
result models the fatal overflow panic. -/
def StatCpu.total (c : StatCpu) : Option Nat :=
  (checked_add c.user c.nice).bind fun s =>
  (checked_add s c.system).bind fun s =>
  (checked_add s c.idle).bind fun s =>
  (checked_add s c.iowait).bind fun s =>
  (checked_add s c.irq).bind fun s =>
  (checked_add s c.softirq).bind fun s =>
  (checked_add s (c.steal.getD 0)).bind fun s =>
  (checked_add s (c.guest.getD 0)).bind fun s =>
  checked_add s (c.guest_nice.getD 0)

/-- `Stat` of `src/stat.rs`: the full parsed record. -/
structure Stat where
  cpu_totals : StatCpu
  cpus : List StatCpu
  context_switches : Nat
  boot_time : Nat
  processes : Nat
  procs_running : Nat
  procs_blocked : Nat
  deriving Repr, DecidableEq

/-- A line-reader error: end of input on a mandatory line, or a line-level
format error (spec section 4.2 and section 7). -/
inductive Err where
  | eof : Err
  | fmt : String → Err
  deriving Repr, DecidableEq

/-- Modelled from the spec: `util::LineParser::parse_line` applies a
line-level function to the next line; an exhausted stream is the distinct
end-of-input condition, and a line whose parser rejects it is not consumed
destructively (spec sections 4.2 and 4.4 step 2), so the state advances only
on success. -/
def parse_line {α : Type} (f : List Char → Except String α)
    (st : List (List Char)) : Except Err (α × List (List Char)) :=
  match st with
  | [] => .error .eof
  | l :: rest =>
    match f l with
    | .ok v => .ok (v, rest)
    | .error e => .error (.fmt e)

/-- The per-cpu loop of `Stat::from_reader`: push results of
`StatCpu::from_str` while it succeeds, stop at the first line it rejects,
leaving that line for the next step. -/
def parseCpus (st : List (List Char)) : List StatCpu × List (List Char) :=
  match st with
  | [] => ([], [])
  | l :: rest =>
    match StatCpu.from_str l with
    | .ok c =>
      let (cs, st2) := parseCpus rest
      (c :: cs, st2)
    | .error _ => ([], l :: rest)

/-- The `parse_single!` macro of `src/stat.rs`: exact label match, one
unsigned value, and no trailing content after whitespace. -/
def parse_single (name : String) (input : List Char) : Except String Nat :=
  match parse_token input with
  | none => .error "cannot read name"
  | some (input, tok) =>
    if tok ≠ name.toList then
      .error ("incorrect name, expected: " ++ name ++ ", actual: " ++ String.mk tok)
    else
      match parse_u64 input with
      | none => .error "cannot read value"
      | some (input, value) =>
        if consume_space input ≠ [] then .error "trailing content"
        else .ok value

/-- `Stat::from_reader` of `src/stat.rs`: aggregate cpu line, the per-cpu
loop, one ignored line, then the five labelled single-value lines in fixed
order; any further lines are left unread. -/
def Stat.from_reader (lines : List (List Char)) : Except Err Stat := do
  let (cpu_totals, lines) ← parse_line StatCpu.from_str lines
  let (cpus, lines) := parseCpus lines
  let (_, lines) ← parse_line parse_dummy lines
  let (context_switches, lines) ← parse_line (parse_single "ctxt") lines
  let (boot_time, lines) ← parse_line (parse_single "btime") lines
  let (processes, lines) ← parse_line (parse_single "processes") lines
  let (procs_running, lines) ← parse_line (parse_single "procs_running") lines
  let (procs_blocked, _) ← parse_line (parse_single "procs_blocked") lines
  pure { cpu_totals, cpus, context_switches, boot_time, processes,
         procs_running, procs_blocked }

/-- Modelled from the spec: the line reader splits the byte stream into
newline-delimited records, stripping each terminator (spec section 4.2). -/
def splitLines : List Char → List (List Char)
  | [] => []
  | c :: cs =>
    if c = '\n' then [] :: splitLines cs
    else
      match splitLines cs with
      | [] => [[c]]
      | l :: ls => (c :: l) :: ls

/-! ## Spec-side grammar (section 6) -/

/-- A decimal numeral token of the grammar in spec section 6: a nonempty
run of decimal digits. -/
def DigitTok (ds : List Char) : Prop := ds ≠ [] ∧ ∀ c ∈ ds, c.isDigit = true

instance (ds : List Char) : Decidable (DigitTok ds) := by
  unfold DigitTok; infer_instance

/-- Modelled from the spec: the whitespace-separated numeral columns of a
cpu line of the grammar in section 6, one space before each column. -/
def renderFields (fs : List (List Char)) : List Char :=
  fs.foldr (fun ds acc => ' ' :: (ds ++ acc)) []

/-- Modelled from the spec: a cpu line of the grammar in section 6, a
label followed by numeral columns. -/
def specCpuLine (lbl : List Char) (fs : List (List Char)) : List Char :=
  lbl ++ renderFields fs

/-- Modelled from the spec: a single-value line of the grammar in
section 6, a label followed by one numeral. -/
def specSingleLine (name : String) (v : List Char) : List Char :=
  name.toList ++ ' ' :: v

/-- The `StatCpu` record described by a list of numeral columns: the first
seven are the mandatory counters, columns eight to ten the optional ones. -/
def cpuOfFields (fs : List (List Char)) : StatCpu where
  user := natOfDigits (fs.getD 0 [])
  nice := natOfDigits (fs.getD 1 [])
  system := natOfDigits (fs.getD 2 [])
  idle := natOfDigits (fs.getD 3 [])
  iowait := natOfDigits (fs.getD 4 [])
  irq := natOfDigits (fs.getD 5 [])
  softirq := natOfDigits (fs.getD 6 [])
  steal := (fs[7]?).map natOfDigits
  guest := (fs[8]?).map natOfDigits
  guest_nice := (fs[9]?).map natOfDigits

/-- Modelled from the spec: a whole input stream of the grammar in
section 6 — aggregate line, per-cpu lines, the ignored line, the five
single-value lines, then unread trailing lines. -/
def specStream (aggFs : List (List Char)) (cd : List (List Char × List (List Char)))
    (ignored : List Char) (vc vb vp vr vbl : List Char)
    (trailing : List (List Char)) : List (List Char) :=
  specCpuLine "cpu".toList aggFs ::
    ((cd.map fun p => specCpuLine p.1 p.2) ++
      ignored ::
        specSingleLine "ctxt" vc ::
          specSingleLine "btime" vb ::
            specSingleLine "processes" vp ::
              specSingleLine "procs_running" vr ::
                specSingleLine "procs_blocked" vbl :: trailing)

/-! ## Concrete inputs -/

/-- The sample `/proc/stat` snapshot given in spec section 8. -/
def sampleRaw : String :=
  "cpu  17501 2 6293 8212469 20141 1955 805 0 0 0\n" ++
  "cpu0 4713 0 1720 2049410 8036 260 255 0 0 0\n" ++
  "cpu1 3866 0 1325 2054893 3673 928 307 0 0 0\n" ++
  "cpu2 4966 1 1988 2051243 5596 516 141 0 0 0\n" ++
  "cpu3 3955 0 1258 2056922 2835 250 100 0 0 0\n" ++
  "intr ...\n" ++
  "ctxt 2238717\n" ++
  "btime 1535128607\n" ++
  "processes 2453\n" ++
  "procs_running 1\n" ++
  "procs_blocked 0\n" ++
  "softirq ...\n"

/-- The sample snapshot split into lines. -/
def sampleLines : List (List Char) := splitLines sampleRaw.toList

/-- The sample snapshot truncated just before the `procs_blocked` line. -/
def truncatedLines : List (List Char) :=
  splitLines ("cpu  17501 2 6293 8212469 20141 1955 805 0 0 0\n" ++
    "cpu0 4713 0 1720 2049410 8036 260 255 0 0 0\n" ++
    "intr ...\n" ++
    "ctxt 2238717\n" ++
    "btime 1535128607\n" ++
    "processes 2453\n" ++
    "procs_running 1\n").toList

/-! ## Helper lemmas about the primitive parsers -/

/-- The first character, if any, fails the predicate. -/
def headNot (p : Char → Bool) : List Char → Prop
  | [] => True
  | c :: _ => p c = false

instance (p : Char → Bool) (l : List Char) : Decidable (headNot p l) := by
  cases l <;> simp [headNot] <;> infer_instance

theorem wsChar_eq_false_of_isDigit (c : Char) (h : c.isDigit = true) :
    wsChar c = false := by
  by_cases h1 : c = ' '
  · subst h1; exact absurd h (by decide)
  · by_cases h2 : c = '\t'
    · subst h2; exact absurd h (by decide)
    · simp [wsChar, h1, h2]

theorem takeWhile_append_eq (p : Char → Bool) (l1 l2 : List Char)
    (h1 : ∀ c ∈ l1, p c = true) (h2 : headNot p l2) :
    (l1 ++ l2).takeWhile p = l1 := by
  induction l1 with
  | nil =>
    cases l2 with
    | nil => rfl
    | cons c t => simp_all [headNot, List.takeWhile_cons]
  | cons c t ih =>
    have hc : p c = true := h1 c (by simp)
    simp only [List.cons_append, List.takeWhile_cons, hc]
    simp [ih (fun x hx => h1 x (by simp [hx]))]

theorem dropWhile_append_eq (p : Char → Bool) (l1 l2 : List Char)
    (h1 : ∀ c ∈ l1, p c = true) (h2 : headNot p l2) :
    (l1 ++ l2).dropWhile p = l2 := by
  induction l1 with
  | nil =>
    cases l2 with
    | nil => rfl
    | cons c t => simp_all [headNot, List.dropWhile_cons]
  | cons c t ih =>
    have hc : p c = true := h1 c (by simp)
    simp only [List.cons_append, List.dropWhile_cons, hc]
    simp [ih (fun x hx => h1 x (by simp [hx]))]

theorem parse_token_render (t rest : List Char) (h1 : t ≠ [])
    (h2 : ∀ c ∈ t, wsChar c = false) (h3 : headNot (fun c => !wsChar c) rest) :
    parse_token (t ++ rest) = some (rest, t) := by
  obtain ⟨c, t', rfl⟩ : ∃ c t', t = c :: t' := by
    cases t with
    | nil => exact absurd rfl h1
    | cons c t' => exact ⟨c, t', rfl⟩
  have hnws : ∀ x ∈ c :: t', (fun c => !wsChar c) x = true := by
    intro x hx; simp [h2 x hx]
  unfold parse_token
  have hdw : ((c :: t') ++ rest).dropWhile wsChar = (c :: t') ++ rest := by
    simp [List.dropWhile_cons, h2 c (by simp)]
  simp only [hdw, takeWhile_append_eq _ _ _ hnws h3,
    dropWhile_append_eq _ _ _ hnws h3]
  simp

theorem parse_u64_render (ds rest : List Char) (h : DigitTok ds)
    (h2 : headNot Char.isDigit rest) :
    parse_u64 (' ' :: ds ++ rest) = some (rest, natOfDigits ds) := by
  obtain ⟨hne, hdig⟩ := h
  obtain ⟨c, ds', rfl⟩ : ∃ c ds', ds = c :: ds' := by
    cases ds with
    | nil => exact absurd rfl hne
    | cons c ds' => exact ⟨c, ds', rfl⟩
  have hdw : (' ' :: (c :: ds') ++ rest).dropWhile wsChar = (c :: ds') ++ rest := by
    simp only [List.cons_append, List.dropWhile_cons]
    have : wsChar ' ' = true := by decide
    simp [this, wsChar_eq_false_of_isDigit c (hdig c (by simp))]
  unfold parse_u64
  have ht := takeWhile_append_eq Char.isDigit (c :: ds') rest hdig h2
  have hd := dropWhile_append_eq Char.isDigit (c :: ds') rest hdig h2
  simp only [List.cons_append] at ht hd hdw
  simp [hdw, ht, hd, hdig c (by simp)]

theorem headNot_isDigit_of_parse_u64_none (l : List Char)
    (h : parse_u64 l = none) : headNot Char.isDigit l := by
  cases l with
  | nil => trivial
  | cons c t =>
    show c.isDigit = false
    by_contra hc
    have hc' : c.isDigit = true := by
      cases h' : c.isDigit with
      | false => exact absurd h' hc
      | true => rfl
    have hdw : (c :: t).dropWhile wsChar = c :: t := by
      simp [List.dropWhile_cons, wsChar_eq_false_of_isDigit c hc']
    unfold parse_u64 at h
    simp only [hdw, List.takeWhile_cons, hc'] at h
    simp at h

theorem renderFields_cons (ds : List Char) (fs : List (List Char)) :
    renderFields (ds :: fs) = ' ' :: (ds ++ renderFields fs) := rfl

theorem parse_u64_nil : parse_u64 [] = none := rfl

theorem headNot_renderFields (fs : List (List Char)) (junk : List Char)
    (hj : fs = [] → headNot Char.isDigit junk) :
    headNot Char.isDigit (renderFields fs ++ junk) := by
  cases fs with
  | nil => exact hj rfl
  | cons ds fs => show Char.isDigit ' ' = false; decide

theorem parse_u64_renderFields (ds : List Char) (fs : List (List Char))
    (junk : List Char) (h : DigitTok ds)
    (hj : fs = [] → headNot Char.isDigit junk) :
    parse_u64 (renderFields (ds :: fs) ++ junk)
      = some (renderFields fs ++ junk, natOfDigits ds) := by
  have := parse_u64_render ds (renderFields fs ++ junk) h
    (headNot_renderFields fs junk hj)
  simpa [renderFields_cons] using this

/-- The whitespace run that separates the label from the first field. -/
theorem headNot_nws_renderFields (fs : List (List Char)) (junk : List Char)
    (hj : fs = [] → junk = []) :
    headNot (fun c => !wsChar c) (renderFields fs ++ junk) := by
  cases fs with
  | nil => rw [hj rfl]; trivial
  | cons ds fs => show (!wsChar ' ') = false; decide

theorem from_str_render (lbl : List Char) (fs : List (List Char)) (junk : List Char)
    (hlbl : startsWithCpu lbl = true)
    (hws : ∀ c ∈ lbl, wsChar c = false)
    (hfs : ∀ ds ∈ fs, DigitTok ds)
    (h7 : 7 ≤ fs.length)
    (hjunk : 11 ≤ fs.length ∨ parse_u64 junk = none) :
    StatCpu.from_str (lbl ++ (renderFields fs ++ junk)) = .ok (cpuOfFields fs) := by
  have hne : lbl ≠ [] := by
    intro h; subst h; exact absurd hlbl (by decide)
  have hjn : fs.length ≤ 10 → headNot Char.isDigit junk := by
    intro hlen
    rcases hjunk with h | h
    · omega
    · exact headNot_isDigit_of_parse_u64_none junk h
  rcases fs with _ | ⟨f0, fs⟩; · simp at h7
  rcases fs with _ | ⟨f1, fs⟩; · simp at h7
  rcases fs with _ | ⟨f2, fs⟩; · simp at h7
  rcases fs with _ | ⟨f3, fs⟩; · simp at h7
  rcases fs with _ | ⟨f4, fs⟩; · simp at h7
  rcases fs with _ | ⟨f5, fs⟩; · simp at h7
  rcases fs with _ | ⟨f6, fs⟩; · simp at h7
  have htok := parse_token_render lbl
    (renderFields (f0 :: f1 :: f2 :: f3 :: f4 :: f5 :: f6 :: fs) ++ junk)
    hne hws (headNot_nws_renderFields _ junk (by simp))
  have hu0 := parse_u64_renderFields f0 (f1 :: f2 :: f3 :: f4 :: f5 :: f6 :: fs) junk
    (hfs f0 (by simp)) (by simp)
  have hu1 := parse_u64_renderFields f1 (f2 :: f3 :: f4 :: f5 :: f6 :: fs) junk
    (hfs f1 (by simp)) (by simp)
  have hu2 := parse_u64_renderFields f2 (f3 :: f4 :: f5 :: f6 :: fs) junk
    (hfs f2 (by simp)) (by simp)
  have hu3 := parse_u64_renderFields f3 (f4 :: f5 :: f6 :: fs) junk
    (hfs f3 (by simp)) (by simp)
  have hu4 := parse_u64_renderFields f4 (f5 :: f6 :: fs) junk
    (hfs f4 (by simp)) (by simp)
  have hu5 := parse_u64_renderFields f5 (f6 :: fs) junk
    (hfs f5 (by simp)) (by simp)
  have hu6 := parse_u64_renderFields f6 fs junk
    (hfs f6 (by simp)) (fun h => by subst h; exact hjn (by simp))
  rcases fs with _ | ⟨f7, fs⟩
  · have h0 : parse_u64 (renderFields [] ++ junk) = none := by
      rcases hjunk with h | h
      · simp at h
      · simpa [renderFields] using h
    unfold StatCpu.from_str
    simp only [htok, hu0, hu1, hu2, hu3, hu4, hu5, hu6, h0, hlbl]
    simp [cpuOfFields]
  · have hu7 := parse_u64_renderFields f7 fs junk
      (hfs f7 (by simp)) (fun h => by subst h; exact hjn (by simp))
    rcases fs with _ | ⟨f8, fs⟩
    · have h0 : parse_u64 (renderFields [] ++ junk) = none := by
        rcases hjunk with h | h
        · simp at h
        · simpa [renderFields] using h
      unfold StatCpu.from_str
      simp only [htok, hu0, hu1, hu2, hu3, hu4, hu5, hu6, hu7, h0, hlbl]
      simp [cpuOfFields]
    · have hu8 := parse_u64_renderFields f8 fs junk
        (hfs f8 (by simp)) (fun h => by subst h; exact hjn (by simp))
      rcases fs with _ | ⟨f9, fs⟩
      · have h0 : parse_u64 (renderFields [] ++ junk) = none := by
          rcases hjunk with h | h
          · simp at h
          · simpa [renderFields] using h
        unfold StatCpu.from_str
        simp only [htok, hu0, hu1, hu2, hu3, hu4, hu5, hu6, hu7, hu8, h0, hlbl]
        simp [cpuOfFields]
      · have hu9 := parse_u64_renderFields f9 fs junk
          (hfs f9 (by simp)) (fun h => by subst h; exact hjn (by simp))
        unfold StatCpu.from_str
        simp only [htok, hu0, hu1, hu2, hu3, hu4, hu5, hu6, hu7, hu8, hu9, hlbl]
        simp [cpuOfFields]

theorem from_str_specCpuLine (lbl : List Char) (fs : List (List Char))
    (hlbl : startsWithCpu lbl = true)
    (hws : ∀ c ∈ lbl, wsChar c = false)
    (hfs : ∀ ds ∈ fs, DigitTok ds)
    (h7 : 7 ≤ fs.length) :
    StatCpu.from_str (specCpuLine lbl fs) = .ok (cpuOfFields fs) := by
  have := from_str_render lbl fs [] hlbl hws hfs h7 (Or.inr parse_u64_nil)
  simpa [specCpuLine] using this

/-- Section 6 conformance of a per-cpu line: label `cpu` plus a decimal
index, then seven to ten numeral columns. -/
def SpecPerCpu (p : List Char × List (List Char)) : Prop :=
  (∃ idx, p.1 = 'c' :: 'p' :: 'u' :: idx ∧ DigitTok idx) ∧
    (∀ ds ∈ p.2, DigitTok ds) ∧ 7 ≤ p.2.length ∧ p.2.length ≤ 10

theorem specPerCpu_label (p : List Char × List (List Char)) (h : SpecPerCpu p) :
    startsWithCpu p.1 = true ∧ ∀ c ∈ p.1, wsChar c = false := by
  obtain ⟨⟨idx, hp, hidx⟩, _⟩ := h
  rw [hp]
  constructor
  · rfl
  · intro c hc
    simp only [List.mem_cons] at hc
    rcases hc with rfl | rfl | rfl | hc
    · decide
    · decide
    · decide
    · exact wsChar_eq_false_of_isDigit c (hidx.2 c hc)

theorem parseCpus_render (cd : List (List Char × List (List Char)))
    (rest : List (List Char))
    (hcd : ∀ p ∈ cd, SpecPerCpu p)
    (hrest : match rest with
      | [] => True
      | l :: _ => ∃ e, StatCpu.from_str l = .error e) :
    parseCpus ((cd.map fun p => specCpuLine p.1 p.2) ++ rest)
      = (cd.map fun p => cpuOfFields p.2, rest) := by
  induction cd with
  | nil =>
    cases rest with
    | nil => rfl
    | cons l t =>
      obtain ⟨e, he⟩ := hrest
      simp only [List.map_nil, List.nil_append]
      unfold parseCpus
      rw [he]
  | cons p t ih =>
    have hp := hcd p (by simp)
    obtain ⟨hl1, hl2⟩ := specPerCpu_label p hp
    have hok := from_str_specCpuLine p.1 p.2 hl1 hl2 hp.2.1 hp.2.2.1
    simp only [List.map_cons, List.cons_append]
    unfold parseCpus
    rw [hok, ih (fun q hq => hcd q (by simp [hq]))]

theorem parse_single_render (name : String) (v : List Char)
    (hname : name.toList ≠ [])
    (hnws : ∀ c ∈ name.toList, wsChar c = false)
    (hv : DigitTok v) :
    parse_single name (specSingleLine name v) = .ok (natOfDigits v) := by
  have htok : parse_token (name.toList ++ ' ' :: v) = some (' ' :: v, name.toList) :=
    parse_token_render name.toList (' ' :: v) hname hnws (by show (!wsChar ' ') = false; decide)
  have hu : parse_u64 (' ' :: v) = some ([], natOfDigits v) := by
    have := parse_u64_render v [] hv (by trivial)
    simpa using this
  unfold parse_single specSingleLine
  simp only [htok, hu]
  simp [consume_space]

theorem from_reader_specStream
    (aggFs : List (List Char)) (cd : List (List Char × List (List Char)))
    (ignored : List Char) (vc vb vp vr vbl : List Char)
    (trailing : List (List Char))
    (hagg : ∀ ds ∈ aggFs, DigitTok ds) (hagg7 : 7 ≤ aggFs.length)
    (hcd : ∀ p ∈ cd, SpecPerCpu p)
    (hign : ∃ e, StatCpu.from_str ignored = .error e)
    (hvc : DigitTok vc) (hvb : DigitTok vb) (hvp : DigitTok vp)
    (hvr : DigitTok vr) (hvbl : DigitTok vbl) :
    Stat.from_reader (specStream aggFs cd ignored vc vb vp vr vbl trailing)
      = .ok { cpu_totals := cpuOfFields aggFs
            , cpus := cd.map fun p => cpuOfFields p.2
            , context_switches := natOfDigits vc
            , boot_time := natOfDigits vb
            , processes := natOfDigits vp
            , procs_running := natOfDigits vr
            , procs_blocked := natOfDigits vbl } := by
  have haggl : StatCpu.from_str (specCpuLine "cpu".toList aggFs)
      = .ok (cpuOfFields aggFs) :=
    from_str_specCpuLine _ aggFs (by decide) (by decide) hagg hagg7
  have hpc := parseCpus_render cd
    (ignored :: specSingleLine "ctxt" vc :: specSingleLine "btime" vb ::
      specSingleLine "processes" vp :: specSingleLine "procs_running" vr ::
      specSingleLine "procs_blocked" vbl :: trailing) hcd hign
  have hs1 := parse_single_render "ctxt" vc (by decide) (by decide) hvc
  have hs2 := parse_single_render "btime" vb (by decide) (by decide) hvb
  have hs3 := parse_single_render "processes" vp (by decide) (by decide) hvp
  have hs4 := parse_single_render "procs_running" vr (by decide) (by decide) hvr
  have hs5 := parse_single_render "procs_blocked" vbl (by decide) (by decide) hvbl
  unfold specStream Stat.from_reader
  simp only [parse_line, haggl, hpc, hs1, hs2, hs3, hs4, hs5, parse_dummy,
    Bind.bind, Except.bind, pure, Except.pure]

/-! ## Claim theorems -/

set_option maxRecDepth 8000

/-- The record the sample snapshot parses to. -/
def sampleStat : Stat where
  cpu_totals := { user := 17501, nice := 2, system := 6293, idle := 8212469,
                  iowait := 20141, irq := 1955, softirq := 805,
                  steal := some 0, guest := some 0, guest_nice := some 0 }
  cpus :=
    [ { user := 4713, nice := 0, system := 1720, idle := 2049410, iowait := 8036,
        irq := 260, softirq := 255, steal := some 0, guest := some 0,
        guest_nice := some 0 },
      { user := 3866, nice := 0, system := 1325, idle := 2054893, iowait := 3673,
        irq := 928, softirq := 307, steal := some 0, guest := some 0,
        guest_nice := some 0 },
      { user := 4966, nice := 1, system := 1988, idle := 2051243, iowait := 5596,
        irq := 516, softirq := 141, steal := some 0, guest := some 0,
        guest_nice := some 0 },
      { user := 3955, nice := 0, system := 1258, idle := 2056922, iowait := 2835,
        irq := 250, softirq := 100, steal := some 0, guest := some 0,
        guest_nice := some 0 } ]
  context_switches := 2238717
  boot_time := 1535128607
  processes := 2453
  procs_running := 1
  procs_blocked := 0

/-- C1: parsing the sample snapshot given in the spec succeeds and yields a
record with cpu_totals.user 17501, four cpus, context_switches 2238717,
boot_time 1535128607, processes 2453, procs_running 1, procs_blocked 0,
and cpus[1].system 1325. -/
theorem sample_snapshot_parses :
    ∃ s, Stat.from_reader sampleLines = .ok s ∧
      s.cpu_totals.user = 17501 ∧ s.cpus.length = 4 ∧
      s.context_switches = 2238717 ∧ s.boot_time = 1535128607 ∧
      s.processes = 2453 ∧ s.procs_running = 1 ∧ s.procs_blocked = 0 ∧
      (s.cpus[1]?).map StatCpu.system = some 1325 :=
  ⟨sampleStat, rfl, rfl, rfl, rfl, rfl, rfl, rfl, rfl, rfl⟩

/-- C4: a stream truncated before the procs_blocked line fails with the
unexpected-end-of-input error and returns no record; the parse is
all-or-nothing. -/
theorem truncated_stream_eof :
    (∀ lines, (∃ s, Stat.from_reader lines = .ok s) ∨
      (∃ e, Stat.from_reader lines = .error e)) ∧
    Stat.from_reader truncatedLines = .error Err.eof ∧
    ∀ s : Stat, Stat.from_reader truncatedLines ≠ .ok s := by
  refine ⟨?_, rfl, ?_⟩
  · intro lines
    cases h : Stat.from_reader lines with
    | ok s => exact Or.inl ⟨s, rfl⟩
    | error e => exact Or.inr ⟨e, rfl⟩
  · intro s h
    rw [show Stat.from_reader truncatedLines = .error Err.eof from rfl] at h
    cases h

/-- C3 counterexample: a stream conforming to the section-6 grammar — zero
per-cpu lines, with the content-unchecked ignored line reading
`cpu0 0 0 0 0 0 0 0` — is rejected by the parser instead of yielding an
empty cpus sequence: the per-cpu loop consumes the ignored line, the dummy
step then consumes the ctxt line, and the ctxt parser fails on the btime
line. -/
theorem grammar_parse_counterexample :
    Stat.from_reader (specStream (List.replicate 7 ['0']) []
        "cpu0 0 0 0 0 0 0 0".toList ['1'] ['1'] ['1'] ['1'] ['1'] [])
      = .error (.fmt "incorrect name, expected: ctxt, actual: btime") := rfl

/-- C3 (amended): for every stream conforming to the section-6 grammar
whose ignored line is not itself accepted by the cpu-line parser, whole
record parsing succeeds and the length of the cpus sequence equals the
number of per-cpu lines; in particular zero per-cpu lines yield an empty
cpus sequence. -/
theorem grammar_parse_cpu_count
    (aggFs : List (List Char)) (cd : List (List Char × List (List Char)))
    (ignored : List Char) (vc vb vp vr vbl : List Char)
    (trailing : List (List Char))
    (hagg : ∀ ds ∈ aggFs, DigitTok ds) (hagg7 : 7 ≤ aggFs.length)
    (_hagg10 : aggFs.length ≤ 10)
    (hcd : ∀ p ∈ cd, SpecPerCpu p)
    (hign : ∃ e, StatCpu.from_str ignored = .error e)
    (hvc : DigitTok vc) (hvb : DigitTok vb) (hvp : DigitTok vp)
    (hvr : DigitTok vr) (hvbl : DigitTok vbl) :
    ∃ s, Stat.from_reader (specStream aggFs cd ignored vc vb vp vr vbl trailing)
        = .ok s ∧ s.cpus.length = cd.length := by
  refine ⟨_, from_reader_specStream aggFs cd ignored vc vb vp vr vbl trailing
    hagg hagg7 hcd hign hvc hvb hvp hvr hvbl, ?_⟩
  simp

/-- Witness for C3: a concrete zero-per-cpu stream with the real intr line
parses to an empty cpus sequence. -/
theorem grammar_parse_cpu_count_witness :
    ∃ s, Stat.from_reader (specStream (List.replicate 7 ['0']) [] "intr".toList
        ['1'] ['2'] ['3'] ['4'] ['5'] []) = .ok s ∧ s.cpus.length = 0 :=
  grammar_parse_cpu_count (List.replicate 7 ['0']) [] "intr".toList
    ['1'] ['2'] ['3'] ['4'] ['5'] []
    (by decide) (by decide) (by decide) (by simp)
    ⟨"starts with cpu<x>", rfl⟩ (by decide) (by decide) (by decide)
    (by decide) (by decide)

/-- C5 counterexample: a stream whose first line is labelled `cpuX` — not
exactly `cpu` — is accepted and its counters recorded as cpu_totals, so the
aggregate line accepted for cpu_totals need not be labelled exactly `cpu`. -/
theorem aggregate_label_counterexample :
    Stat.from_reader (splitLines ("cpuX 1 2 3 4 5 6 7\nintr x\nctxt 1\n" ++
        "btime 2\nprocesses 3\nprocs_running 4\nprocs_blocked 5\n").toList)
      = .ok { cpu_totals := { user := 1, nice := 2, system := 3, idle := 4,
                              iowait := 5, irq := 6, softirq := 7,
                              steal := none, guest := none, guest_nice := none },
              cpus := [], context_switches := 1, boot_time := 2,
              processes := 3, procs_running := 4, procs_blocked := 5 } := rfl

/-- C5 (amended): on every cpu line only the prefix of the first token is
validated: a leading token that does not begin with `cpu` is rejected with
the fatal format error, while any line whose leading token begins with
`cpu` — aggregate or per-cpu, with or without a decimal index — is accepted
when followed by at least seven numeral columns. -/
theorem cpu_label_prefix_check :
    (∀ (input tok rest : List Char), parse_token input = some (rest, tok) →
      startsWithCpu tok = false →
      StatCpu.from_str input = .error "starts with cpu<x>") ∧
    (∀ (lbl : List Char) (fs : List (List Char)),
      startsWithCpu lbl = true → (∀ c ∈ lbl, wsChar c = false) →
      (∀ ds ∈ fs, DigitTok ds) → 7 ≤ fs.length →
      StatCpu.from_str (specCpuLine lbl fs) = .ok (cpuOfFields fs)) := by
  constructor
  · intro input tok rest h h2
    unfold StatCpu.from_str
    rw [h]
    simp [h2]
  · exact fun lbl fs h1 h2 h3 h4 => from_str_specCpuLine lbl fs h1 h2 h3 h4

/-- Witness for C5: the rejection branch on a line led by `intr`, and the
acceptance branch on a line labelled `cpuZ`. -/
theorem cpu_label_prefix_check_witness :
    StatCpu.from_str "intr 1 2".toList = .error "starts with cpu<x>" ∧
    StatCpu.from_str (specCpuLine "cpuZ".toList (List.replicate 7 ['4']))
      = .ok (cpuOfFields (List.replicate 7 ['4'])) :=
  ⟨cpu_label_prefix_check.1 "intr 1 2".toList "intr".toList " 1 2".toList
      rfl rfl,
   cpu_label_prefix_check.2 "cpuZ".toList (List.replicate 7 ['4'])
      rfl (by decide) (by decide) (by decide)⟩

/-- C2: for every StatCpu value, total() is exactly the sum of the seven
mandatory counters plus each present optional counter, absent optional
fields contributing zero, whenever that sum fits the unsigned 64-bit
range; and whenever the exact sum exceeds that range, total() is the
fatal overflow condition (none), never a wrapped or saturated value. -/
theorem total_exact_sum_or_overflow (c : StatCpu) :
    c.total =
      if c.user + c.nice + c.system + c.idle + c.iowait + c.irq + c.softirq + c.steal.getD 0 + c.guest.getD 0 + c.guest_nice.getD 0 < 2 ^ 64
      then some (c.user + c.nice + c.system + c.idle + c.iowait + c.irq + c.softirq + c.steal.getD 0 + c.guest.getD 0 + c.guest_nice.getD 0)
      else none := by
  simp only [StatCpu.total, checked_add]
  by_cases h2 : c.user + c.nice < 2 ^ 64
  · simp only [if_pos h2, Option.some_bind]
    by_cases h3 : c.user + c.nice + c.system < 2 ^ 64
    · simp only [if_pos h3, Option.some_bind]
      by_cases h4 : c.user + c.nice + c.system + c.idle < 2 ^ 64
      · simp only [if_pos h4, Option.some_bind]
        by_cases h5 : c.user + c.nice + c.system + c.idle + c.iowait < 2 ^ 64
        · simp only [if_pos h5, Option.some_bind]
          by_cases h6 : c.user + c.nice + c.system + c.idle + c.iowait + c.irq < 2 ^ 64
          · simp only [if_pos h6, Option.some_bind]
            by_cases h7 : c.user + c.nice + c.system + c.idle + c.iowait + c.irq + c.softirq < 2 ^ 64
            · simp only [if_pos h7, Option.some_bind]
              by_cases h8 : c.user + c.nice + c.system + c.idle + c.iowait + c.irq + c.softirq + c.steal.getD 0 < 2 ^ 64
              · simp only [if_pos h8, Option.some_bind]
                by_cases h9 : c.user + c.nice + c.system + c.idle + c.iowait + c.irq + c.softirq + c.steal.getD 0 + c.guest.getD 0 < 2 ^ 64
                · simp only [if_pos h9, Option.some_bind]
                · simp only [if_neg h9, Option.none_bind]
                  rw [if_neg (by omega)]
              · simp only [if_neg h8, Option.none_bind]
                rw [if_neg (by omega)]
            · simp only [if_neg h7, Option.none_bind]
              rw [if_neg (by omega)]
          · simp only [if_neg h6, Option.none_bind]
            rw [if_neg (by omega)]
        · simp only [if_neg h5, Option.none_bind]
          rw [if_neg (by omega)]
      · simp only [if_neg h4, Option.none_bind]
        rw [if_neg (by omega)]
    · simp only [if_neg h3, Option.none_bind]
      rw [if_neg (by omega)]
  · simp only [if_neg h2, Option.none_bind]
    rw [if_neg (by omega)]

/-- The names of the seven mandatory cpu counters, in wire order. -/
def mandatoryName (k : Nat) : String :=
  match k with
  | 0 => "user"
  | 1 => "nice"
  | 2 => "system"
  | 3 => "idle"
  | 4 => "iowait"
  | 5 => "irq"
  | _ => "softirq"

/-- C6: cpu-line parsing reads exactly seven mandatory unsigned integers in
the order user, nice, system, idle, iowait, irq, softirq, and when fewer
numeral columns are present (the next is absent or unparsable), the line is
rejected with the fatal error naming the first of those seven fields that
failed. -/
theorem mandatory_field_error_names_field
    (lbl : List Char) (fs : List (List Char)) (junk : List Char)
    (hlbl : startsWithCpu lbl = true) (hws : ∀ c ∈ lbl, wsChar c = false)
    (hfs : ∀ ds ∈ fs, DigitTok ds) (hlen : fs.length < 7)
    (hjunk : parse_u64 junk = none) (hj0 : fs = [] → junk = []) :
    StatCpu.from_str (lbl ++ (renderFields fs ++ junk))
      = .error (mandatoryName fs.length) := by
  have hne : lbl ≠ [] := by
    intro h; subst h; exact absurd hlbl (by decide)
  have hjn : headNot Char.isDigit junk :=
    headNot_isDigit_of_parse_u64_none junk hjunk
  rcases fs with _ | ⟨f0, fs⟩
  · have hj := hj0 rfl
    subst hj
    have htok := parse_token_render lbl (renderFields [] ++ [])
      hne hws (headNot_nws_renderFields [] [] (fun _ => rfl))
    have hfail : parse_u64 (renderFields ([] : List (List Char)) ++ ([] : List Char)) = none :=
      parse_u64_nil
    unfold StatCpu.from_str
    simp only [htok, hfail, hlbl]
    rfl
  rcases fs with _ | ⟨f1, fs⟩
  · have htok := parse_token_render lbl (renderFields (f0 :: []) ++ junk)
      hne hws (headNot_nws_renderFields _ junk (by simp))
    have hu0 := parse_u64_renderFields f0 ([]) junk
      (hfs f0 (by simp)) (fun _ => hjn)
    have hfail : parse_u64 (renderFields ([] : List (List Char)) ++ junk) = none := by
      simpa [renderFields] using hjunk
    unfold StatCpu.from_str
    simp only [htok, hu0, hfail, hlbl]
    rfl
  rcases fs with _ | ⟨f2, fs⟩
  · have htok := parse_token_render lbl (renderFields (f0 :: f1 :: []) ++ junk)
      hne hws (headNot_nws_renderFields _ junk (by simp))
    have hu0 := parse_u64_renderFields f0 (f1 :: []) junk
      (hfs f0 (by simp)) (by simp)
    have hu1 := parse_u64_renderFields f1 ([]) junk
      (hfs f1 (by simp)) (fun _ => hjn)
    have hfail : parse_u64 (renderFields ([] : List (List Char)) ++ junk) = none := by
      simpa [renderFields] using hjunk
    unfold StatCpu.from_str
    simp only [htok, hu0, hu1, hfail, hlbl]
    rfl
  rcases fs with _ | ⟨f3, fs⟩
  · have htok := parse_token_render lbl (renderFields (f0 :: f1 :: f2 :: []) ++ junk)
      hne hws (headNot_nws_renderFields _ junk (by simp))
    have hu0 := parse_u64_renderFields f0 (f1 :: f2 :: []) junk
      (hfs f0 (by simp)) (by simp)
    have hu1 := parse_u64_renderFields f1 (f2 :: []) junk
      (hfs f1 (by simp)) (by simp)
    have hu2 := parse_u64_renderFields f2 ([]) junk
      (hfs f2 (by simp)) (fun _ => hjn)
    have hfail : parse_u64 (renderFields ([] : List (List Char)) ++ junk) = none := by
      simpa [renderFields] using hjunk
    unfold StatCpu.from_str
    simp only [htok, hu0, hu1, hu2, hfail, hlbl]
    rfl
  rcases fs with _ | ⟨f4, fs⟩
  · have htok := parse_token_render lbl (renderFields (f0 :: f1 :: f2 :: f3 :: []) ++ junk)
      hne hws (headNot_nws_renderFields _ junk (by simp))
    have hu0 := parse_u64_renderFields f0 (f1 :: f2 :: f3 :: []) junk
      (hfs f0 (by simp)) (by simp)
    have hu1 := parse_u64_renderFields f1 (f2 :: f3 :: []) junk
      (hfs f1 (by simp)) (by simp)
    have hu2 := parse_u64_renderFields f2 (f3 :: []) junk
      (hfs f2 (by simp)) (by simp)
    have hu3 := parse_u64_renderFields f3 ([]) junk
      (hfs f3 (by simp)) (fun _ => hjn)
    have hfail : parse_u64 (renderFields ([] : List (List Char)) ++ junk) = none := by
      simpa [renderFields] using hjunk
    unfold StatCpu.from_str
    simp only [htok, hu0, hu1, hu2, hu3, hfail, hlbl]
    rfl
  rcases fs with _ | ⟨f5, fs⟩
  · have htok := parse_token_render lbl (renderFields (f0 :: f1 :: f2 :: f3 :: f4 :: []) ++ junk)
      hne hws (headNot_nws_renderFields _ junk (by simp))
    have hu0 := parse_u64_renderFields f0 (f1 :: f2 :: f3 :: f4 :: []) junk
      (hfs f0 (by simp)) (by simp)
    have hu1 := parse_u64_renderFields f1 (f2 :: f3 :: f4 :: []) junk
      (hfs f1 (by simp)) (by simp)
    have hu2 := parse_u64_renderFields f2 (f3 :: f4 :: []) junk
      (hfs f2 (by simp)) (by simp)
    have hu3 := parse_u64_renderFields f3 (f4 :: []) junk
      (hfs f3 (by simp)) (by simp)
    have hu4 := parse_u64_renderFields f4 ([]) junk
      (hfs f4 (by simp)) (fun _ => hjn)
    have hfail : parse_u64 (renderFields ([] : List (List Char)) ++ junk) = none := by
      simpa [renderFields] using hjunk
    unfold StatCpu.from_str
    simp only [htok, hu0, hu1, hu2, hu3, hu4, hfail, hlbl]
    rfl
  rcases fs with _ | ⟨f6, fs⟩
  · have htok := parse_token_render lbl (renderFields (f0 :: f1 :: f2 :: f3 :: f4 :: f5 :: []) ++ junk)
      hne hws (headNot_nws_renderFields _ junk (by simp))
    have hu0 := parse_u64_renderFields f0 (f1 :: f2 :: f3 :: f4 :: f5 :: []) junk
      (hfs f0 (by simp)) (by simp)
    have hu1 := parse_u64_renderFields f1 (f2 :: f3 :: f4 :: f5 :: []) junk
      (hfs f1 (by simp)) (by simp)
    have hu2 := parse_u64_renderFields f2 (f3 :: f4 :: f5 :: []) junk
      (hfs f2 (by simp)) (by simp)
    have hu3 := parse_u64_renderFields f3 (f4 :: f5 :: []) junk
      (hfs f3 (by simp)) (by simp)
    have hu4 := parse_u64_renderFields f4 (f5 :: []) junk
      (hfs f4 (by simp)) (by simp)
    have hu5 := parse_u64_renderFields f5 ([]) junk
      (hfs f5 (by simp)) (fun _ => hjn)
    have hfail : parse_u64 (renderFields ([] : List (List Char)) ++ junk) = none := by
      simpa [renderFields] using hjunk
    unfold StatCpu.from_str
    simp only [htok, hu0, hu1, hu2, hu3, hu4, hu5, hfail, hlbl]
    rfl
  · simp only [List.length_cons] at hlen
    omega

/-- Witness for C6: the line `cpu 1 2` stops at the third mandatory field
and is rejected with the error naming `system`. -/
theorem mandatory_field_error_witness :
    StatCpu.from_str ("cpu".toList ++ (renderFields [['1'], ['2']] ++ []))
      = .error "system" :=
  mandatory_field_error_names_field "cpu".toList [['1'], ['2']] []
    (by decide) (by decide) (by decide) (by decide) parse_u64_nil (by simp)


/-- C7: a cpu line with seven mandatory numeral columns followed by zero to
three optional columns parses successfully, and each of steal, guest,
guest_nice is recorded as distinguishably absent (none) exactly when its
column is missing, while an explicitly present column — including an
explicit zero — is recorded as present with its value. -/
theorem optional_fields_presence
    (lbl : List Char) (m opt : List (List Char))
    (hlbl : startsWithCpu lbl = true) (hws : ∀ c ∈ lbl, wsChar c = false)
    (hm : ∀ ds ∈ m, DigitTok ds) (hopt : ∀ ds ∈ opt, DigitTok ds)
    (hlen : m.length = 7) (_holen : opt.length ≤ 3) :
    StatCpu.from_str (specCpuLine lbl (m ++ opt))
      = .ok (cpuOfFields (m ++ opt)) ∧
    (cpuOfFields (m ++ opt)).steal = (opt[0]?).map natOfDigits ∧
    (cpuOfFields (m ++ opt)).guest = (opt[1]?).map natOfDigits ∧
    (cpuOfFields (m ++ opt)).guest_nice = (opt[2]?).map natOfDigits := by
  refine ⟨from_str_specCpuLine lbl (m ++ opt) hlbl hws ?_ (by simp [hlen]), ?_, ?_, ?_⟩
  · intro ds hds
    rcases List.mem_append.1 hds with h | h
    · exact hm ds h
    · exact hopt ds h
  · show ((m ++ opt)[7]?).map natOfDigits = _
    rw [List.getElem?_append_right (by omega), hlen]
  · show ((m ++ opt)[8]?).map natOfDigits = _
    rw [List.getElem?_append_right (by omega), hlen]
  · show ((m ++ opt)[9]?).map natOfDigits = _
    rw [List.getElem?_append_right (by omega), hlen]

/-- Witness for C7: an eight-column line with an explicit zero steal column
records steal as present zero, guest and guest_nice as absent. -/
theorem optional_fields_presence_witness :
    StatCpu.from_str (specCpuLine "cpu0".toList
        ([['1'], ['2'], ['3'], ['4'], ['5'], ['6'], ['7']] ++ [['0']]))
      = .ok (cpuOfFields ([['1'], ['2'], ['3'], ['4'], ['5'], ['6'], ['7']] ++ [['0']])) ∧
    (cpuOfFields ([['1'], ['2'], ['3'], ['4'], ['5'], ['6'], ['7']] ++ [['0']])).steal
      = some 0 ∧
    (cpuOfFields ([['1'], ['2'], ['3'], ['4'], ['5'], ['6'], ['7']] ++ [['0']])).guest
      = none ∧
    (cpuOfFields ([['1'], ['2'], ['3'], ['4'], ['5'], ['6'], ['7']] ++ [['0']])).guest_nice
      = none :=
  optional_fields_presence "cpu0".toList
    [['1'], ['2'], ['3'], ['4'], ['5'], ['6'], ['7']] [['0']]
    (by decide) (by decide) (by decide) (by decide) (by decide) (by decide)

/-- C9: cpu-line parsing never rejects a line for extra content after the
recognized fields: for every line made of a cpu label, at least seven
numeral columns, and trailing content — extra columns beyond the tenth, or
any trailing text that does not read as a number — the parse succeeds, and
the recognized field values depend only on the first ten columns, never on
the trailing content. -/
theorem trailing_content_never_rejected
    (lbl : List Char) (fs : List (List Char)) (junk : List Char)
    (hlbl : startsWithCpu lbl = true) (hws : ∀ c ∈ lbl, wsChar c = false)
    (hfs : ∀ ds ∈ fs, DigitTok ds) (h7 : 7 ≤ fs.length)
    (hjunk : 11 ≤ fs.length ∨ parse_u64 junk = none) :
    StatCpu.from_str (lbl ++ (renderFields fs ++ junk)) = .ok (cpuOfFields fs) :=
  from_str_render lbl fs junk hlbl hws hfs h7 hjunk

/-- Witness for C9: a line with eleven numeral columns and trailing text
parses, ignoring the eleventh column and the text. -/
theorem trailing_content_never_rejected_witness :
    StatCpu.from_str ("cpu1".toList ++
        (renderFields (List.replicate 11 ['3']) ++ " foo 55".toList))
      = .ok (cpuOfFields (List.replicate 11 ['3'])) :=
  trailing_content_never_rejected "cpu1".toList (List.replicate 11 ['3'])
    " foo 55".toList (by decide) (by decide) (by decide) (by decide)
    (Or.inl (by decide))

/-- C8: on the five single-value lines, a label that does not exactly match
the expected fixed name is rejected with the format error naming both the
expected and the actual label, and trailing non-whitespace content after
the unsigned value is rejected. -/
theorem single_value_line_checks :
    (∀ (name : String) (input rest tok : List Char),
      parse_token input = some (rest, tok) → tok ≠ name.toList →
      parse_single name input = .error
        ("incorrect name, expected: " ++ name ++ ", actual: " ++ String.mk tok)) ∧
    (∀ (name : String) (v junk : List Char),
      name.toList ≠ [] → (∀ c ∈ name.toList, wsChar c = false) →
      DigitTok v → headNot Char.isDigit junk → consume_space junk ≠ [] →
      parse_single name (specSingleLine name v ++ junk)
        = .error "trailing content") := by
  constructor
  · intro name input rest tok h h2
    unfold parse_single
    rw [h]
    have h2' : tok ≠ name.data := h2
    simp [h2']
  · intro name v junk hn hnws hv hnd hcs
    have htok := parse_token_render name.toList (' ' :: (v ++ junk)) hn hnws
      (by show (!wsChar ' ') = false; decide)
    have hu := parse_u64_render v junk hv hnd
    simp only [List.cons_append] at hu
    unfold parse_single
    simp only [specSingleLine, List.append_assoc, List.cons_append, htok, hu]
    simp [hcs]

/-- Witness for C8: the ctxt line rejects a btime label naming both labels,
and rejects trailing text after the value. -/
theorem single_value_line_checks_witness :
    parse_single "ctxt" "btime 5".toList
      = .error "incorrect name, expected: ctxt, actual: btime" ∧
    parse_single "ctxt" (specSingleLine "ctxt" ['5'] ++ " x".toList)
      = .error "trailing content" :=
  ⟨single_value_line_checks.1 "ctxt" "btime 5".toList " 5".toList
      "btime".toList rfl (by decide),
   single_value_line_checks.2 "ctxt" ['5'] " x".toList
      (by decide) (by decide) (by decide) (by decide) (by decide)⟩

/-- C10: in every StatCpu produced by cpu-line parsing, presence of the
optional counters is monotone in wire order: if steal is absent then guest
is absent, and if guest is absent then guest_nice is absent. -/
theorem optional_presence_monotone (input : List Char) (c : StatCpu)
    (h : StatCpu.from_str input = .ok c) :
    (c.steal = none → c.guest = none) ∧
    (c.guest = none → c.guest_nice = none) := by
  unfold StatCpu.from_str at h
  rcases e0 : parse_token input with _ | ⟨i0, tok⟩
  · simp [e0] at h
  cases hb : startsWithCpu tok
  · simp [e0, hb] at h
  rcases e1 : parse_u64 i0 with _ | ⟨i1, v1⟩
  · simp [e0, hb, e1] at h
  rcases e2 : parse_u64 i1 with _ | ⟨i2, v2⟩
  · simp [e0, hb, e1, e2] at h
  rcases e3 : parse_u64 i2 with _ | ⟨i3, v3⟩
  · simp [e0, hb, e1, e2, e3] at h
  rcases e4 : parse_u64 i3 with _ | ⟨i4, v4⟩
  · simp [e0, hb, e1, e2, e3, e4] at h
  rcases e5 : parse_u64 i4 with _ | ⟨i5, v5⟩
  · simp [e0, hb, e1, e2, e3, e4, e5] at h
  rcases e6 : parse_u64 i5 with _ | ⟨i6, v6⟩
  · simp [e0, hb, e1, e2, e3, e4, e5, e6] at h
  rcases e7 : parse_u64 i6 with _ | ⟨i7, v7⟩
  · simp [e0, hb, e1, e2, e3, e4, e5, e6, e7] at h
  rcases e8 : parse_u64 i7 with _ | ⟨i8, v8⟩
  · simp only [e0, hb, e1, e2, e3, e4, e5, e6, e7, e8] at h
    injection h with h
    subst h
    simp
  rcases e9 : parse_u64 i8 with _ | ⟨i9, v9⟩
  · simp only [e0, hb, e1, e2, e3, e4, e5, e6, e7, e8, e9] at h
    injection h with h
    subst h
    simp
  rcases e10 : parse_u64 i9 with _ | ⟨i10, v10⟩
  · simp only [e0, hb, e1, e2, e3, e4, e5, e6, e7, e8, e9, e10] at h
    injection h with h
    subst h
    simp
  simp only [e0, hb, e1, e2, e3, e4, e5, e6, e7, e8, e9, e10] at h
  injection h with h
  subst h
  simp

/-- The record parsed from the witness line of C10. -/
def monoWitnessCpu : StatCpu where
  user := 1
  nice := 2
  system := 3
  idle := 4
  iowait := 5
  irq := 6
  softirq := 7
  steal := none
  guest := none
  guest_nice := none

/-- Witness for C10: the monotonicity holds on the record parsed from a
seven-column line. -/
theorem optional_presence_monotone_witness :
    (monoWitnessCpu.steal = none → monoWitnessCpu.guest = none) ∧
    (monoWitnessCpu.guest = none → monoWitnessCpu.guest_nice = none) :=
  optional_presence_monotone "cpu0 1 2 3 4 5 6 7".toList monoWitnessCpu rfl
